import Mathlib

/-!
Verification of the content-normalization layer of the md2docx repository:
the HTML sanitizer (tree-walking and streaming strategies), the image byte
sniffer and display-fit calculator, the render-result adapter, and the
syntax-highlight run builder.

Each JavaScript/TypeScript function is shallowly embedded as an executable
Lean function over `List Char` / `List Nat` / `ℚ`.  Regex-based string
rewriting (`String.replace` with a global regex) is embedded as an explicit
left-to-right scanner implementing exactly the matching semantics of the
concrete pattern (the patterns involved are deterministic: greedy or lazy
repetition over disjoint character classes, so maximal/minimal munch is
exact and no general backtracking engine is needed).  Loops that advance an
index by at least one character per iteration are embedded with a fuel
parameter instantiated with `length + 1`, which dominates the number of
iterations.
-/

set_option maxRecDepth 4096

/-! ## Character helpers (ASCII case, JS character classes) -/

/-- The double-quote character (written by code to avoid escaping issues). -/
def dquote : Char := Char.ofNat 34

/-- The single-quote character. -/
def squote : Char := Char.ofNat 39

/-- ASCII lower-casing, the effect of JS `toLowerCase` on ASCII letters. -/
def lowerChar (c : Char) : Char :=
  if 65 ≤ c.toNat ∧ c.toNat ≤ 90 then Char.ofNat (c.toNat + 32) else c

/-- JS regex word character `\w` = `[A-Za-z0-9_]`. -/
def isWordChar (c : Char) : Bool :=
  (48 ≤ c.toNat && c.toNat ≤ 57) || (65 ≤ c.toNat && c.toNat ≤ 90) ||
    (97 ≤ c.toNat && c.toNat ≤ 122) || c.toNat == 95

/-- ASCII letter (the class `[a-z]` under the `i` flag). -/
def isAsciiLetter (c : Char) : Bool :=
  (65 ≤ c.toNat && c.toNat ≤ 90) || (97 ≤ c.toNat && c.toNat ≤ 122)

/-- ASCII decimal digit. -/
def isDigit (c : Char) : Bool := 48 ≤ c.toNat && c.toNat ≤ 57

/-- Hex digit, the class `[0-9a-fA-F]`. -/
def isHexDigit (c : Char) : Bool :=
  (48 ≤ c.toNat && c.toNat ≤ 57) || (97 ≤ c.toNat && c.toNat ≤ 102) ||
    (65 ≤ c.toNat && c.toNat ≤ 70)

/-- JS whitespace: the class `\s` (also what `String.prototype.trim` strips). -/
def isJsSpace (c : Char) : Bool :=
  c.toNat == 9 || c.toNat == 10 || c.toNat == 11 || c.toNat == 12 ||
    c.toNat == 13 || c.toNat == 32 || c.toNat == 160 || c.toNat == 0x1680 ||
    (0x2000 ≤ c.toNat && c.toNat ≤ 0x200A) || c.toNat == 0x2028 ||
    c.toNat == 0x2029 || c.toNat == 0x202F || c.toNat == 0x205F ||
    c.toNat == 0x3000 || c.toNat == 0xFEFF

/-- Exact-list prefix test. -/
def isPfx : List Char → List Char → Bool
  | [], _ => true
  | _ :: _, [] => false
  | p :: ps, c :: cs => p == c && isPfx ps cs

/-- Case-insensitive prefix match against a lowercase pattern; returns the
remainder after the pattern on success. -/
def matchCi : List Char → List Char → Option (List Char)
  | [], l => some l
  | _ :: _, [] => none
  | p :: ps, c :: cs => if lowerChar c = p then matchCi ps cs else none

/-- The suffix after the first (case-insensitive) occurrence of `pat`,
if any: the semantics of a lazy `[\s\S]*?` up to a literal. -/
def dropAfterCi (pat : List Char) : List Char → Option (List Char)
  | [] => matchCi pat []
  | c :: cs =>
    match matchCi pat (c :: cs) with
    | some r => some r
    | none => dropAfterCi pat cs

/-- The suffix after the first occurrence of the character `q`, if any. -/
def splitAfterChar (q : Char) : List Char → Option (List Char)
  | [] => none
  | c :: cs => if c = q then some cs else splitAfterChar q cs

/-- JS `String.prototype.trim` on a character list. -/
def jsTrimList (l : List Char) : List Char :=
  ((l.dropWhile isJsSpace).reverse.dropWhile isJsSpace).reverse

/-- JS `trim` on a string. -/
def jsTrimStr (s : String) : String := String.mk (jsTrimList s.data)

/-- JS `toLowerCase` (ASCII fragment) on a string. -/
def jsLowerStr (s : String) : String := String.mk (s.data.map lowerChar)

/-! ## Streaming sanitizer (`sanitizeHtmlWithoutDom`, src/unnamed/part_000)

Each `replace` pass of the source is one scanner below.  The global regex
match-and-replace discipline of JS — scan left to right, on a match resume
after the replacement, on a failure advance one character — is what each
scanner implements. -/

/-- Pass 1, `/<!--[\s\S]*?-->/g → ''`: remove comments.  When a `<!--` has
no following `-->` the regex can never match again anywhere in the rest of
the input (a later opener would need a later closer), so the remainder is
returned unchanged. -/
def removeCommentsAux : Nat → List Char → List Char
  | 0, l => l
  | _ + 1, [] => []
  | fuel + 1, c :: cs =>
    if c = '<' then
      match matchCi ['!', '-', '-'] cs with
      | some rest =>
        match dropAfterCi ['-', '-', '>'] rest with
        | some rest2 => removeCommentsAux fuel rest2
        | none => c :: cs
      | none => c :: removeCommentsAux fuel cs
    else c :: removeCommentsAux fuel cs

/-- Remove HTML comments (the source's first `replace`). -/
def removeComments (l : List Char) : List Char :=
  removeCommentsAux (l.length + 1) l

/-- True when a word boundary `\b` holds before this suffix, after a word
character: the next character is absent or not a word character. -/
def boundaryOk : List Char → Bool
  | [] => true
  | c :: _ => !isWordChar c

/-- One paired-tag pass, `/<tag\b[\s\S]*?<\/tag>/gi → ''` (`tag` lowercase).
As with comments, an opener with no closer anywhere later means no further
match is possible, so the remainder is returned unchanged. -/
def removePairedAux (tag : List Char) : Nat → List Char → List Char
  | 0, l => l
  | _ + 1, [] => []
  | fuel + 1, c :: cs =>
    if c = '<' then
      match matchCi tag cs with
      | some rest =>
        if boundaryOk rest then
          match dropAfterCi ('<' :: '/' :: tag ++ ['>']) rest with
          | some rest2 => removePairedAux tag fuel rest2
          | none => c :: cs
        else c :: removePairedAux tag fuel cs
      | none => c :: removePairedAux tag fuel cs
    else c :: removePairedAux tag fuel cs

/-- Remove every `<tag ...>...</tag>` span for one blocked tag. -/
def removePairedTag (tag : String) (l : List Char) : List Char :=
  removePairedAux tag.data (l.length + 1) l

/-- The unquoted attribute value `[^\s>]+` (greedy, at least one char);
returns the remainder on success. -/
def unquotedValue (l : List Char) : Option (List Char) :=
  let v := l.takeWhile (fun c => !isJsSpace c && c != '>')
  if v.isEmpty then none else some (l.dropWhile (fun c => !isJsSpace c && c != '>'))

/-- The attribute value `(?:"[^"]*"|'[^']*'|[^\s>]+)` with JS ordered
alternation: a quoted alternative without its closing quote falls through
to the unquoted one (which then starts at the quote character). -/
def matchAttrValue : List Char → Option (List Char)
  | [] => none
  | c :: cs =>
    if c = dquote then
      match splitAfterChar dquote cs with
      | some rest => some rest
      | none => unquotedValue (c :: cs)
    else if c = squote then
      match splitAfterChar squote cs with
      | some rest => some rest
      | none => unquotedValue (c :: cs)
    else unquotedValue (c :: cs)

/-- After a whitespace character, try `on[a-z]+\s*=\s*<value>` (the `i`
flag makes `on` and the letter run case-insensitive).  Greedy runs followed
by a mandatory distinct character make backtracking vacuous. -/
def tryOnAttr (l : List Char) : Option (List Char) :=
  match matchCi ['o', 'n'] l with
  | none => none
  | some r1 =>
    if (r1.takeWhile isAsciiLetter).isEmpty then none
    else
      match (r1.dropWhile isAsciiLetter).dropWhile isJsSpace with
      | '=' :: r4 => matchAttrValue (r4.dropWhile isJsSpace)
      | _ => none

/-- Pass 8, `/\son[a-z]+\s*=\s*(?:"[^"]*"|'[^']*'|[^\s>]+)/gi → ''`:
strip inline event-handler attributes. -/
def removeOnAttrsAux : Nat → List Char → List Char
  | 0, l => l
  | _ + 1, [] => []
  | fuel + 1, c :: cs =>
    if isJsSpace c then
      match tryOnAttr cs with
      | some rest => removeOnAttrsAux fuel rest
      | none => c :: removeOnAttrsAux fuel cs
    else c :: removeOnAttrsAux fuel cs

/-- Strip inline event handlers. -/
def removeOnAttrs (l : List Char) : List Char :=
  removeOnAttrsAux (l.length + 1) l

/-- After a whitespace character, try
`href\s*=\s*(["'])\s*javascript:[\s\S]*?\1`; returns the remainder after
the closing quote on success. -/
def tryJsHref (l : List Char) : Option (List Char) :=
  match matchCi ['h', 'r', 'e', 'f'] l with
  | none => none
  | some r1 =>
    match r1.dropWhile isJsSpace with
    | '=' :: r3 =>
      match r3.dropWhile isJsSpace with
      | q :: r5 =>
        if q = dquote || q = squote then
          match matchCi "javascript:".data (r5.dropWhile isJsSpace) with
          | some r7 => splitAfterChar q r7
          | none => none
        else none
      | [] => none
    | _ => none

/-- Pass 9, `/\shref\s*=\s*(["'])\s*javascript:[\s\S]*?\1/gi → ' href="#"'`:
neutralize `javascript:` hrefs. -/
def neutralizeHrefAux : Nat → List Char → List Char
  | 0, l => l
  | _ + 1, [] => []
  | fuel + 1, c :: cs =>
    if isJsSpace c then
      match tryJsHref cs with
      | some rest => " href=\"#\"".data ++ neutralizeHrefAux fuel rest
      | none => c :: neutralizeHrefAux fuel cs
    else c :: neutralizeHrefAux fuel cs

/-- Neutralize `javascript:` hrefs. -/
def neutralizeJsHrefs (l : List Char) : List Char :=
  neutralizeHrefAux (l.length + 1) l

/-- `sanitizeHtmlWithoutDom` (src/unnamed/part_000 lines 106–128): the
streaming (no-DOM) sanitizer — comments, the six blocked paired-tag
removals in source order, event-handler attributes, `javascript:` hrefs. -/
def sanitizeHtmlWithoutDom (html : String) : String :=
  let out0 := removeComments html.data
  let out1 := removePairedTag "script" out0
  let out2 := removePairedTag "iframe" out1
  let out3 := removePairedTag "object" out2
  let out4 := removePairedTag "embed" out3
  let out5 := removePairedTag "audio" out4
  let out6 := removePairedTag "video" out5
  String.mk (neutralizeJsHrefs (removeOnAttrs out6))

/-! ## Content check (`hasHtmlContentWithoutDom`, `sanitizeAndCheck`) -/

/-- `/<[^>]+>/g → ''`: strip tags.  A `<` is removed together with
everything up to the first following `>` provided at least one character
lies between; a bare `<>` or an unclosed `<` does not match. -/
def stripTagsAux : Nat → List Char → List Char
  | 0, l => l
  | _ + 1, [] => []
  | fuel + 1, c :: cs =>
    if c = '<' then
      match splitAfterChar '>' cs with
      | some rest =>
        if (cs.takeWhile (fun x => x != '>')).isEmpty then c :: stripTagsAux fuel cs
        else stripTagsAux fuel rest
      | none => c :: stripTagsAux fuel cs
    else c :: stripTagsAux fuel cs

/-- Strip `<...>` tag spans. -/
def stripTags (l : List Char) : List Char := stripTagsAux (l.length + 1) l

/-- `/\s+/g → ' '`: collapse whitespace runs to a single space. -/
def collapseWsAux : Nat → List Char → List Char
  | 0, l => l
  | _ + 1, [] => []
  | fuel + 1, c :: cs =>
    if isJsSpace c then ' ' :: collapseWsAux fuel (cs.dropWhile isJsSpace)
    else c :: collapseWsAux fuel cs

/-- Collapse whitespace runs. -/
def collapseWs (l : List Char) : List Char := collapseWsAux (l.length + 1) l

/-- The self-rendering tag names of the content heuristic,
`/<(img|svg|table|pre|code|hr|br|math|canvas|iframe|object|embed)\b/i`. -/
def renderTagWords : List String :=
  ["img", "svg", "table", "pre", "code", "hr", "br", "math", "canvas",
    "iframe", "object", "embed"]

/-- Does any of the alternation's words match here, with a trailing `\b`? -/
def anyRenderWord (l : List Char) : Bool :=
  renderTagWords.any fun w =>
    match matchCi w.data l with
    | some r => boundaryOk r
    | none => false

/-- `regex.test` for the self-rendering-tag pattern. -/
def hasRenderTag : List Char → Bool
  | [] => false
  | c :: cs => (c == '<' && anyRenderWord cs) || hasRenderTag cs

/-- `normalized` of `hasHtmlContentWithoutDom` (src/unnamed/part_000 lines
131–135): comments, `<script>` pairs and `<style>` pairs removed, then
trimmed. -/
def normalizeContent (s : String) : String :=
  String.mk (jsTrimList
    (removePairedTag "style" (removePairedTag "script" (removeComments s.data))))

/-- `text` of `hasHtmlContentWithoutDom` (line 140): tags stripped,
whitespace collapsed, trimmed. -/
def extractText (s : String) : String :=
  String.mk (jsTrimList (collapseWs (stripTags s.data)))

/-- `hasHtmlContentWithoutDom` (src/unnamed/part_000 lines 130–149). -/
def hasHtmlContentWithoutDom (s : String) : Bool :=
  let normalized := normalizeContent s
  if normalized = "" then false
  else if extractText normalized ≠ "" then true
  else hasRenderTag normalized.data

/-- One `<br\s*\/?>` unit of the line-break-only pattern. -/
def brUnit (l : List Char) : Option (List Char) :=
  match matchCi ['<', 'b', 'r'] l with
  | none => none
  | some r1 =>
    match r1.dropWhile isJsSpace with
    | '/' :: '>' :: rest => some rest
    | '>' :: rest => some rest
    | _ => none

/-- The filler `(?:\s|&nbsp;)*` after a `<br>`: consume whitespace
characters and (case-insensitive) `&nbsp;` sequences. -/
def brFillersAux : Nat → List Char → List Char
  | 0, l => l
  | _ + 1, [] => []
  | fuel + 1, c :: cs =>
    if isJsSpace c then brFillersAux fuel cs
    else
      match matchCi ['&', 'n', 'b', 's', 'p', ';'] (c :: cs) with
      | some r => brFillersAux fuel r
      | none => c :: cs

/-- `(?:<br\s*\/?>(?:\s|&nbsp;)*)+$` after the first unit is demanded. -/
def brOnlyAux : Nat → List Char → Bool
  | 0, _ => false
  | fuel + 1, l =>
    match brUnit l with
    | none => false
    | some r =>
      match brFillersAux (r.length + 1) r with
      | [] => true
      | r2 => brOnlyAux fuel r2

/-- The anchored test `/^(?:<br\s*\/?>(?:\s|&nbsp;)*)+$/i` of
`sanitizeAndCheck` (src/unnamed/part_000 line 97). -/
def brOnly (s : String) : Bool := brOnlyAux (s.data.length + 1) s.data

/-- `sanitizeAndCheck` (src/unnamed/part_000 lines 95–104) in the Node/CLI
(no-DOM) environment, where `sanitizeHtml` takes its `sanitizeHtmlWithoutDom`
branch and `hasHtmlContent` its `hasHtmlContentWithoutDom` branch. -/
def sanitizeAndCheck (html : String) : String × Bool :=
  if brOnly html then ("", false)
  else
    let sanitized := sanitizeHtmlWithoutDom html
    (sanitized, hasHtmlContentWithoutDom sanitized)

/-! ## Tree-walking sanitizer (`sanitizeNodeTree`, src/unnamed/part_000)

The browser parses the input into a node tree (platform code, outside this
repository); `sanitizeNodeTree` then walks that tree.  The tree is
embedded as `HtmlNode` — element tag names are stored as the DOM exposes
them through `tagName` (canonically upper-case for HTML elements) — and
the stack-driven destructive walk of the source, whose removals are all
local, as the equivalent structural recursion `sanitizeNodes`. -/

/-- A DOM attribute as `sanitizeNodeTree` sees it: `attr.name`,
`attr.value`. -/
structure HtmlAttr where
  name : String
  value : String
deriving DecidableEq, Repr

/-- A node of the parsed tree: element, text, or comment. -/
inductive HtmlNode where
  | text (s : String)
  | comment (s : String)
  | elem (tag : String) (attrs : List HtmlAttr) (children : List HtmlNode)

/-- `blockedTags` of `sanitizeNodeTree` (line 35). -/
def blockedTagNames : List String :=
  ["SCRIPT", "IFRAME", "OBJECT", "EMBED", "AUDIO", "VIDEO"]

/-- Negation of the removal condition of line 57: an attribute survives
unless its name starts with `on`, or it is an `href` whose trimmed,
lower-cased value starts with `javascript:`. -/
def keepAttr (a : HtmlAttr) : Bool :=
  !(isPfx "on".data a.name.data ||
    (a.name == "href" && isPfx "javascript:".data (jsLowerStr (jsTrimStr a.value)).data))

/-- `sanitizeNodeTree` (src/unnamed/part_000 lines 34–71) as a recursion
over sibling lists: comments are removed, blocked-tag elements are removed
with their whole subtree, every surviving element keeps only its safe
attributes and has its children sanitized, text is untouched. -/
def sanitizeNodes : List HtmlNode → List HtmlNode
  | [] => []
  | HtmlNode.text s :: rest => HtmlNode.text s :: sanitizeNodes rest
  | HtmlNode.comment _ :: rest => sanitizeNodes rest
  | HtmlNode.elem tag attrs children :: rest =>
    if blockedTagNames.contains tag then sanitizeNodes rest
    else
      HtmlNode.elem tag (attrs.filter keepAttr) (sanitizeNodes children) ::
        sanitizeNodes rest

mutual

/-- A node is clean when it is not a comment, not a blocked element, all
its attributes survive `keepAttr`, and all its descendants are clean. -/
def cleanNode : HtmlNode → Bool
  | HtmlNode.text _ => true
  | HtmlNode.comment _ => false
  | HtmlNode.elem tag attrs children =>
    !blockedTagNames.contains tag && attrs.all keepAttr && cleanNodes children

/-- All nodes of a sibling list are clean. -/
def cleanNodes : List HtmlNode → Bool
  | [] => true
  | n :: rest => cleanNode n && cleanNodes rest

end

/-- `sanitizeHtml` (src/unnamed/part_000 lines 12–28) in a DOM
environment.  Parsing (`template.innerHTML = html`) and serializing
(`template.innerHTML`) are platform operations; a thrown exception
anywhere in the `try` block is modelled by the oracle returning `none`,
upon which the `catch` returns the input unchanged. -/
def sanitizeHtmlDom (parseHtml : String → Option (List HtmlNode))
    (serializeHtml : List HtmlNode → Option String) (html : String) : String :=
  match parseHtml html with
  | none => html
  | some nodes =>
    match serializeHtml (sanitizeNodes nodes) with
    | none => html
    | some out => out

/-! ## Image byte sniffer (`getImageDimensions`, src/src/exporters/docx-image-utils.ts)

The Node/CLI path (no DOM), lines 195–297 of the source, over a byte
buffer embedded as `List Nat` (a `Uint8Array` read out of bounds yields
`undefined` in JS; every read the result depends on is length-guarded by
the source, and the one unguarded read — the JPEG `marker` when fill-byte
skipping reaches the end — feeds only comparisons that the following
length check cuts off, so reading a default `0` is equivalent). -/

/-- `bytes[o]`, with out-of-range reads defaulting. -/
def bget (bytes : List Nat) (o : Nat) : Nat := bytes.getD o 0

/-- `readU16LE` (line 198). -/
def readU16LE (bytes : List Nat) (o : Nat) : Nat :=
  bget bytes o + 256 * bget bytes (o + 1)

/-- `readU16BE` (line 199). -/
def readU16BE (bytes : List Nat) (o : Nat) : Nat :=
  256 * bget bytes o + bget bytes (o + 1)

/-- `readU32LE` (lines 200–201). -/
def readU32LE (bytes : List Nat) (o : Nat) : Nat :=
  bget bytes o + 256 * bget bytes (o + 1) + 65536 * bget bytes (o + 2) +
    16777216 * bget bytes (o + 3)

/-- `readU32BE` (lines 202–203). -/
def readU32BE (bytes : List Nat) (o : Nat) : Nat :=
  16777216 * bget bytes o + 65536 * bget bytes (o + 1) +
    256 * bget bytes (o + 2) + bget bytes (o + 3)

/-- The PNG guard (lines 207–213). -/
def pngSig (bytes : List Nat) : Bool :=
  24 ≤ bytes.length && bget bytes 0 == 0x89 && bget bytes 1 == 0x50 &&
    bget bytes 2 == 0x4e && bget bytes 3 == 0x47

/-- The GIF guard (line 220). -/
def gifSig (bytes : List Nat) : Bool :=
  10 ≤ bytes.length && bget bytes 0 == 0x47 && bget bytes 1 == 0x49 &&
    bget bytes 2 == 0x46

/-- The BMP guard (line 227). -/
def bmpSig (bytes : List Nat) : Bool :=
  26 ≤ bytes.length && bget bytes 0 == 0x42 && bget bytes 1 == 0x4d

/-- The JPEG guard (line 236). -/
def jpegSig (bytes : List Nat) : Bool :=
  4 ≤ bytes.length && bget bytes 0 == 0xff && bget bytes 1 == 0xd8

/-- The WEBP RIFF guard (lines 273–277). -/
def webpSig (bytes : List Nat) : Bool :=
  30 ≤ bytes.length && bget bytes 0 == 0x52 && bget bytes 1 == 0x49 &&
    bget bytes 2 == 0x46 && bget bytes 3 == 0x46 && bget bytes 8 == 0x57 &&
    bget bytes 9 == 0x45 && bget bytes 10 == 0x42 && bget bytes 11 == 0x50

/-- The SOF-marker set (lines 256–260). -/
def isSOFmarker (marker : Nat) : Bool :=
  (0xc0 ≤ marker && marker ≤ 0xc3) || (0xc5 ≤ marker && marker ≤ 0xc7) ||
    (0xc9 ≤ marker && marker ≤ 0xcb) || (0xcd ≤ marker && marker ≤ 0xcf)

/-- `while (offset < bytes.length && bytes[offset] === 0xff) offset++`
(line 244); the fuel dominates the remaining length. -/
def skipFF (bytes : List Nat) : Nat → Nat → Nat
  | 0, offset => offset
  | fuel + 1, offset =>
    if offset < bytes.length ∧ bget bytes offset = 0xff then
      skipFF bytes fuel (offset + 1)
    else offset

/-- The JPEG marker-segment scan (lines 237–269).  `none` stands for the
loop ending without a return — by its condition turning false, or by any
`break` — after which control falls through past the WEBP check.  Every
iteration advances `offset` by at least one, so fuel `bytes.length + 1`
dominates the iteration count. -/
def jpegScan (bytes : List Nat) : Nat → Nat → Option (Nat × Nat)
  | 0, _ => none
  | fuel + 1, offset =>
    if offset + 4 < bytes.length then
      if bget bytes offset ≠ 0xff then jpegScan bytes fuel (offset + 1)
      else
        let o1 := skipFF bytes (bytes.length + 1) offset
        let marker := bget bytes o1
        let o2 := o1 + 1
        if marker = 0xd9 ∨ marker = 0xda then none
        else if bytes.length ≤ o2 + 1 then none
        else
          let segmentLength := readU16BE bytes o2
          if segmentLength < 2 then none
          else if isSOFmarker marker ∧ o2 + 7 < bytes.length then
            some (readU16BE bytes (o2 + 5), readU16BE bytes (o2 + 3))
          else jpegScan bytes fuel (o2 + segmentLength)
    else none

/-- Is the WEBP chunk type at bytes 12–15 the four given character codes? -/
def chunkIs (bytes : List Nat) (a b c d : Nat) : Bool :=
  bget bytes 12 == a && bget bytes 13 == b && bget bytes 14 == c &&
    bget bytes 15 == d

/-- `getImageDimensions` (Node/CLI path, lines 195–297): result as
`(width, height)`.  The `VP8L` bit extractions `bits & 0x3fff` and
`(bits >> 14) & 0x3fff` are `bits % 2^14` and `(bits / 2^14) % 2^14`
(exact also for `bits ≥ 2^31`, where JS's signed shift feeds the mask the
two's-complement value, whose low 14 bits agree because `2^18 ∣ 2^32`). -/
def getImageDimensions (bytes : List Nat) : Nat × Nat :=
  if pngSig bytes then (readU32BE bytes 16, readU32BE bytes 20)
  else if gifSig bytes then (readU16LE bytes 6, readU16LE bytes 8)
  else if bmpSig bytes then
    let rawHeight := readU32LE bytes 22
    let height := if 0x7fffffff < rawHeight then 0x100000000 - rawHeight else rawHeight
    (readU32LE bytes 18, height)
  else
    match (if jpegSig bytes then jpegScan bytes (bytes.length + 1) 2 else none) with
    | some wh => wh
    | none =>
      if webpSig bytes then
        if chunkIs bytes 0x56 0x50 0x38 0x58 then
          (bget bytes 24 + 256 * bget bytes 25 + 65536 * bget bytes 26 + 1,
            bget bytes 27 + 256 * bget bytes 28 + 65536 * bget bytes 29 + 1)
        else if chunkIs bytes 0x56 0x50 0x38 0x4c && 25 ≤ bytes.length &&
            bget bytes 20 == 0x2f then
          let bits := readU32LE bytes 21
          (bits % 16384 + 1, bits / 16384 % 16384 + 1)
        else (96, 96)
      else (96, 96)

/-! ## Display-fit calculator (`calculateImageDimensions`, lines 39–61)

JS numbers are embedded as `ℚ`; `Math.round` rounds half toward `+∞`. -/

/-- `Math.round`. -/
def jsRound (q : ℚ) : ℤ := ⌊q + 1 / 2⌋

/-- `calculateImageDimensions` (lines 39–61): original size when it fits
both maxima, otherwise both axes scaled by the smaller ratio and rounded
independently. -/
def calculateImageDimensions (originalWidth originalHeight : ℚ) : ℚ × ℚ :=
  let maxWidthPixels : ℚ := 6 * 96
  let maxHeightPixels : ℚ := (19 / 2) * 96
  if originalWidth ≤ maxWidthPixels ∧ originalHeight ≤ maxHeightPixels then
    (originalWidth, originalHeight)
  else
    let widthRatio := maxWidthPixels / originalWidth
    let heightRatio := maxHeightPixels / originalHeight
    let ratio := min widthRatio heightRatio
    (((jsRound (originalWidth * ratio) : ℤ) : ℚ),
      ((jsRound (originalHeight * ratio) : ℤ) : ℚ))

/-! ## Render-result adapter (`convertPluginResultToDOCX`, lines 69–158)

The docx library objects are embedded structurally: only the fields the
source sets and that the claims speak about (children, alignment, text,
italics, color, image transformation) are modelled; `spacing` and
`altText` metadata are constant decoration in the source and are omitted. -/

/-- Paragraph alignment. -/
inductive DocxAlign where
  | left
  | center
  | right
deriving DecidableEq, Repr

/-- An `ImageRun` transformation. -/
structure ImageTransform where
  width : ℚ
  height : ℚ
deriving DecidableEq, Repr

/-- A child run of a paragraph. -/
inductive DocxChild where
  | textRun (text : String) (italics : Bool) (color : Option String)
  | imageRun (transformation : ImageTransform)
deriving DecidableEq, Repr

/-- The adapter's result: a paragraph, an inline text run, or an inline
image run. -/
inductive DocxElement where
  | paragraph (children : List DocxChild) (alignment : Option DocxAlign)
  | inlineText (text : String) (italics : Bool) (color : Option String)
  | inlineImage (transformation : ImageTransform)
deriving DecidableEq, Repr

/-- The discriminant of `UnifiedRenderResult.type`. -/
inductive RRType where
  | empty
  | error
  | text
  | image
  | other
deriving DecidableEq, Repr

/-- `renderResult.content`: JS numbers as `ℚ`, absent fields as `none`. -/
structure RenderContent where
  text : Option String
  data : Option String
  width : Option ℚ
  height : Option ℚ
deriving DecidableEq, Repr

/-- `renderResult.display`. -/
structure RenderDisplay where
  inline : Bool
  alignment : Option String
deriving DecidableEq, Repr

/-- A `UnifiedRenderResult`. -/
structure UnifiedRenderResult where
  type : RRType
  content : RenderContent
  display : RenderDisplay
deriving DecidableEq, Repr

/-- `alignmentMap[alignment || 'center'] || AlignmentType.CENTER`
(lines 141–149). -/
def alignOf (s : String) : DocxAlign :=
  if s = "center" then DocxAlign.center
  else if s = "right" then DocxAlign.right
  else if s = "left" then DocxAlign.left
  else DocxAlign.center

/-- `convertPluginResultToDOCX` (lines 69–158).  In the image branch the
raw raster dimensions are quartered and rounded (lines 116–117) before the
display-fit calculation (line 120). -/
def convertPluginResultToDOCX (renderResult : UnifiedRenderResult) : DocxElement :=
  match renderResult.type with
  | RRType.empty => DocxElement.paragraph [] none
  | RRType.error =>
    if renderResult.display.inline then
      DocxElement.inlineText (renderResult.content.text.getD "") true (some "FF0000")
    else
      DocxElement.paragraph
        [DocxChild.textRun (renderResult.content.text.getD "") true (some "FF0000")]
        (some DocxAlign.left)
  | RRType.text =>
    if renderResult.display.inline then
      DocxElement.inlineText (renderResult.content.text.getD "") false none
    else
      DocxElement.paragraph
        [DocxChild.textRun (renderResult.content.text.getD "") false none]
        (some DocxAlign.left)
  | RRType.image =>
    let scaledWidth : ℚ := ((jsRound ((renderResult.content.width.getD 0) / 4) : ℤ) : ℚ)
    let scaledHeight : ℚ := ((jsRound ((renderResult.content.height.getD 0) / 4) : ℤ) : ℚ)
    let dims := calculateImageDimensions scaledWidth scaledHeight
    if renderResult.display.inline then
      DocxElement.inlineImage ⟨dims.1, dims.2⟩
    else
      DocxElement.paragraph [DocxChild.imageRun ⟨dims.1, dims.2⟩]
        (some (alignOf (renderResult.display.alignment.getD "center")))
  | RRType.other => DocxElement.paragraph [] none

/-- The image transformation carried by the adapter's result, if any. -/
def firstImage : List DocxChild → Option ImageTransform
  | [] => none
  | DocxChild.imageRun t :: _ => some t
  | _ :: rest => firstImage rest

/-- Extract the placed image transformation from a `DocxElement`. -/
def imageTransformOf : DocxElement → Option ImageTransform
  | DocxElement.inlineImage t => some t
  | DocxElement.paragraph children _ => firstImage children
  | _ => none

/-! ## Highlight run builder (src/src/exporters/docx-code-highlighter.ts)

`createCodeHighlighter`'s closure state (`codeColors`, `codeStyle`) is
passed explicitly.  `TextRun` objects are embedded as `Run`: a styled text
run or the soft line-break marker `TextRun({text:'', break:1})`. -/

/-- The theme's code colors: default foreground and the class-name table
(a JS object embedded as an association list; `lookupColor` is property
access). -/
structure CodeColors where
  foreground : String
  colors : List (String × String)
deriving DecidableEq, Repr

/-- The code character style. -/
structure CodeStyle where
  font : String
  size : Nat
deriving DecidableEq, Repr

/-- `codeColors.colors?.[key]`. -/
def lookupColor : List (String × String) → String → Option String
  | [], _ => none
  | (a, b) :: rest, k => if a = k then some b else lookupColor rest k

/-- A produced `TextRun`: a styled text run, or the break marker
`TextRun({text:'', break:1})`. -/
inductive Run where
  | text (t : String) (color : String) (font : String) (size : Nat)
  | brk
deriving DecidableEq, Repr

/-- `themeColor.replace('#', '')`: remove the first occurrence only. -/
def removeFirstChar (q : Char) : List Char → List Char
  | [] => []
  | c :: cs => if c = q then cs else c :: removeFirstChar q cs

/-- `replace('#', '')` on a string. -/
def stripFirstHash (s : String) : String :=
  String.mk (removeFirstChar '#' s.data)

/-- The token loop of `getHighlightColor` (lines 159–176): skip empty
tokens, strip a leading `hljs-`, skip if nothing remains, normalize `-` to
`_`, look the result up, and return the first *truthy* configured color
with its first `#` removed. -/
def resolveTokens (cc : CodeColors) : List String → Option String
  | [] => none
  | t :: rest =>
    if t = "" then resolveTokens cc rest
    else
      let token := if isPfx "hljs-".data t.data then String.mk (t.data.drop 5) else t
      if token = "" then resolveTokens cc rest
      else
        let normalized := String.mk (token.data.map fun c => if c = '-' then '_' else c)
        match lookupColor cc.colors normalized with
        | some c => if c = "" then resolveTokens cc rest else some (stripFirstHash c)
        | none => resolveTokens cc rest

/-- `getHighlightColor` (lines 148–179) for a `null` or array class list
(the string case splits on whitespace first and is not needed by the
no-DOM pipeline, which always passes arrays). -/
def getHighlightColor (cc : CodeColors) : Option (List String) → Option String
  | none => none
  | some toks => resolveTokens cc toks

/-- `currentColor` of `appendHighlightedRunsFromHtml` (lines 74–80): walk
the scope stack innermost-first (the JS array is pushed at the end and
walked backwards; here the innermost frame is the head); the first truthy
resolved color wins, else the default foreground. -/
def currentColor (cc : CodeColors) : List (List String) → String
  | [] => cc.foreground
  | cls :: rest =>
    match getHighlightColor cc (some cls) with
    | some c => if c = "" then currentColor cc rest else c
    | none => currentColor cc rest

/-- `text.split('\n')`. -/
def splitNl : List Char → List (List Char)
  | [] => [[]]
  | c :: rest =>
    if c = '\n' then [] :: splitNl rest
    else
      match splitNl rest with
      | [] => [[c]]
      | h :: t => (c :: h) :: t

/-- The `segments.forEach` body of `appendCodeTextRuns` (lines 201–214):
a text run per non-empty segment, a break marker after every segment but
the last. -/
def emitSegments (style : CodeStyle) (appliedColor : String) :
    List (List Char) → List Run
  | [] => []
  | [seg] =>
    if seg.length > 0 then [Run.text (String.mk seg) appliedColor style.font style.size]
    else []
  | seg :: rest =>
    (if seg.length > 0 then [Run.text (String.mk seg) appliedColor style.font style.size]
     else []) ++ Run.brk :: emitSegments style appliedColor rest

/-- `appendCodeTextRuns` (lines 187–215): empty text appends nothing;
otherwise the text is split on newlines and emitted with
`color || foreground` (a `null` or empty color falls back). -/
def appendCodeTextRuns (style : CodeStyle) (foreground : String) (text : String)
    (runs : List Run) (color : Option String) : List Run :=
  if text = "" then runs
  else
    let appliedColor :=
      match color with
      | some c => if c = "" then foreground else c
      | none => foreground
    runs ++ emitSegments style appliedColor (splitNl text.data)

/-! ## Entity decoding (`decodeHtmlEntities`, lines 27–62) -/

/-- The value of one hex digit (input already lower-cased). -/
def hexDigitVal (c : Char) : Nat :=
  if isDigit c then c.toNat - 48 else c.toNat - 87

/-- Hex value of a digit list. -/
def hexVal (l : List Char) : Nat := l.foldl (fun acc c => 16 * acc + hexDigitVal c) 0

/-- `Number.parseInt(s, 10)`: the maximal leading decimal-digit run, or
`NaN` (`none`) when there is none (the input here never carries sign or
whitespace). -/
def parseIntDec (l : List Char) : Option Nat :=
  let ds := l.takeWhile isDigit
  if ds.isEmpty then none
  else some (ds.foldl (fun acc c => 10 * acc + (c.toNat - 48)) 0)

/-- `String.fromCodePoint` inside the source's `try`: a code point above
`0x10FFFF` throws and the `catch` yields `''`; a valid scalar yields its
character.  (A surrogate code point yields a lone surrogate in JS, which
`Char` cannot carry; `Char.ofNat` maps it to `U+0000`.  No claim depends
on this corner.) -/
def fromCodePoint (n : Nat) : List Char :=
  if n ≤ 0x10FFFF then [Char.ofNat n] else []

/-- Match the entity body `(#x?[0-9a-fA-F]+|[a-zA-Z]+)` followed by `;`
right after a `&`; returns the body and the remainder after the `;`.
Greedy runs followed by the mandatory `;` make backtracking vacuous, and
a failed `#x`-form cannot fall back to the `x`-less form because `x` is
not a hex digit. -/
def parseEntity (l : List Char) : Option (List Char × List Char) :=
  match l with
  | '#' :: 'x' :: r2 =>
    let run := r2.takeWhile isHexDigit
    if run.isEmpty then none
    else
      match r2.dropWhile isHexDigit with
      | ';' :: rest => some ('#' :: 'x' :: run, rest)
      | _ => none
  | '#' :: r =>
    let run := r.takeWhile isHexDigit
    if run.isEmpty then none
    else
      match r.dropWhile isHexDigit with
      | ';' :: rest => some ('#' :: run, rest)
      | _ => none
  | _ =>
    let run := l.takeWhile isAsciiLetter
    if run.isEmpty then none
    else
      match l.dropWhile isAsciiLetter with
      | ';' :: rest => some (run, rest)
      | _ => none

/-- The replacement callback (lines 29–61): named entities, `#x` hex,
`#` decimal (with `parseInt`'s partial parse), otherwise the match is
reproduced verbatim. -/
def entityRepl (ent : List Char) : List Char :=
  let lower := ent.map lowerChar
  if lower = "lt".data then ['<']
  else if lower = "gt".data then ['>']
  else if lower = "amp".data then ['&']
  else if lower = "quot".data then [dquote]
  else if lower = "apos".data then [squote]
  else if lower = "nbsp".data then [' ']
  else if isPfx "#x".data lower then fromCodePoint (hexVal (lower.drop 2))
  else if isPfx "#".data lower then
    match parseIntDec (lower.drop 1) with
    | some n => fromCodePoint n
    | none => '&' :: ent ++ [';']
  else '&' :: ent ++ [';']

/-- The global scan of `/&(#x?[0-9a-fA-F]+|[a-zA-Z]+);/g`. -/
def decodeEntitiesAux : Nat → List Char → List Char
  | 0, l => l
  | _ + 1, [] => []
  | fuel + 1, c :: cs =>
    if c = '&' then
      match parseEntity cs with
      | some (ent, rest) => entityRepl ent ++ decodeEntitiesAux fuel rest
      | none => c :: decodeEntitiesAux fuel cs
    else c :: decodeEntitiesAux fuel cs

/-- `decodeHtmlEntities` (lines 27–62). -/
def decodeHtmlEntities (l : List Char) : List Char :=
  decodeEntitiesAux (l.length + 1) l

/-! ## The no-DOM markup scanner (`appendHighlightedRunsFromHtml`,
lines 64–131) -/

/-- `html.indexOf('>', i + 1)`: the characters strictly between the `<`
and the first following `>`, and the remainder after that `>`. -/
def splitAtGt : List Char → Option (List Char × List Char)
  | [] => none
  | c :: cs =>
    if c = '>' then some ([], cs)
    else
      match splitAtGt cs with
      | some (a, b) => some (c :: a, b)
      | none => none

/-- Try `class\s*=\s*(?:"([^"]*)"|'([^']*)')` at this position (after the
`\b` has been checked by the caller); returns the captured value. -/
def tryClassAt (l : List Char) : Option (List Char) :=
  match matchCi "class".data l with
  | none => none
  | some r1 =>
    match r1.dropWhile isJsSpace with
    | '=' :: r3 =>
      match r3.dropWhile isJsSpace with
      | q :: r5 =>
        if q = dquote then
          if (r5.dropWhile fun x => x != dquote).isEmpty then none
          else some (r5.takeWhile fun x => x != dquote)
        else if q = squote then
          if (r5.dropWhile fun x => x != squote).isEmpty then none
          else some (r5.takeWhile fun x => x != squote)
        else none
      | [] => none
    | _ => none

/-- The first match of `/\bclass\s*=\s*(?:"([^"]*)"|'([^']*)')/i` in the
raw tag text; `prevWord` tracks whether the previous character was a word
character (for the `\b`). -/
def findClassAttr (prevWord : Bool) : List Char → Option (List Char)
  | [] => none
  | c :: cs =>
    match (if prevWord then none else tryClassAt (c :: cs)) with
    | some v => some v
    | none => findClassAttr (isWordChar c) cs

/-- `classValue.trim().split(/\s+/).filter(Boolean)`: the whitespace-
separated words of the trimmed value. -/
def splitWsTokensAux : Nat → List Char → List String
  | 0, _ => []
  | _ + 1, [] => []
  | fuel + 1, c :: cs =>
    if isJsSpace c then splitWsTokensAux fuel cs
    else
      String.mk ((c :: cs).takeWhile fun x => !isJsSpace x) ::
        splitWsTokensAux fuel ((c :: cs).dropWhile fun x => !isJsSpace x)

/-- Whitespace-separated words. -/
def splitWsTokens (l : List Char) : List String := splitWsTokensAux (l.length + 1) l

/-- Lines 114–117: the class-token list of an opening `span` tag. -/
def parseClasses (rawTag : List Char) : List String :=
  match findClassAttr false rawTag with
  | some v => splitWsTokens (jsTrimList v)
  | none => []

/-- `flush` (lines 82–87): a non-empty buffer is entity-decoded and
appended under the current resolved color; the buffer empties. -/
def flushRuns (cc : CodeColors) (style : CodeStyle) (stack : List (List String))
    (buffer : List Char) (runs : List Run) : List Run :=
  if buffer = [] then runs
  else
    appendCodeTextRuns style cc.foreground (String.mk (decodeHtmlEntities buffer))
      runs (some (currentColor cc stack))

/-- The character loop of `appendHighlightedRunsFromHtml` (lines 89–130).
The scope stack is held innermost-first.  A tag with no closing `>` sends
the rest into the buffer and stops; `span`-prefixed tags push (after a
flush), `/span` pops (after a flush; popping an empty stack is a no-op),
`br`-prefixed tags leave a newline in the emptied buffer, any other tag
is skipped.  Every step consumes at least one character, so fuel
`length + 1` dominates; the final flush closes the scan. -/
def scanHtml (cc : CodeColors) (style : CodeStyle) :
    Nat → List Char → List (List String) → List Char → List Run → List Run
  | 0, _, stack, buffer, runs => flushRuns cc style stack buffer runs
  | _ + 1, [], stack, buffer, runs => flushRuns cc style stack buffer runs
  | fuel + 1, c :: cs, stack, buffer, runs =>
    if c ≠ '<' then scanHtml cc style fuel cs stack (buffer ++ [c]) runs
    else
      match splitAtGt cs with
      | none => flushRuns cc style stack (buffer ++ c :: cs) runs
      | some (inside, after) =>
        let rawTag := jsTrimList inside
        let tag := rawTag.map lowerChar
        if isPfx "span".data tag then
          scanHtml cc style fuel after (parseClasses rawTag :: stack) []
            (flushRuns cc style stack buffer runs)
        else if tag = "/span".data then
          scanHtml cc style fuel after stack.tail []
            (flushRuns cc style stack buffer runs)
        else if isPfx "br".data tag then
          scanHtml cc style fuel after stack ['\n']
            (flushRuns cc style stack buffer runs)
        else scanHtml cc style fuel after stack buffer runs

/-- `appendHighlightedRunsFromHtml` (lines 64–131). -/
def appendHighlightedRunsFromHtml (cc : CodeColors) (style : CodeStyle)
    (html : List Char) (runs : List Run) : List Run :=
  scanHtml cc style (html.length + 1) html [] [] runs

/-- `getHighlightedRunsForCode` (lines 255–315) in the Node/CLI (no-DOM)
environment.  The highlighting engine (`hljs.highlight`) is an external
black box: `highlighted` is its `.value` output when highlighting was
attempted and succeeded, `none` otherwise (no language, unknown language,
or a caught highlight error).  Empty code yields one empty styled run; a
falsy or run-less highlight result falls back to the raw code under the
default foreground. -/
def getHighlightedRunsForCode (cc : CodeColors) (style : CodeStyle)
    (code : String) (highlighted : Option String) : List Run :=
  if code = "" then [Run.text "" cc.foreground style.font style.size]
  else
    let runs0 :=
      match highlighted with
      | some hv =>
        if hv = "" then []
        else appendHighlightedRunsFromHtml cc style hv.data []
      | none => []
    if runs0 = [] then appendCodeTextRuns style cc.foreground code [] (some cc.foreground)
    else runs0

/-- The theme table of the concrete highlighting scenario:
`keyword -> "FF0000"`, default foreground `24292E`. -/
def scenarioTheme : CodeColors := ⟨"24292E", [("keyword", "FF0000")]⟩

/-- The default code character style of the source (lines 22–25). -/
def scenarioStyle : CodeStyle := ⟨"Consolas", 20⟩

/-! ## Spec-side color resolution (for the refinement claim C6)

These two definitions follow the specification's words — "for each class
token, strip a namespace prefix if present, normalize hyphens to a
canonical separator, and look up a per-theme color table; first token in
the innermost-to-outermost scope order that resolves to a configured
color wins; if none resolve, use the theme's default foreground" — to be
compared with the source-derived `resolveTokens` / `currentColor`. -/

/-- A token as the spec normalizes it: namespace stripped, hyphens to
underscores. -/
def specNormalizeToken (t : String) : String :=
  let token := if isPfx "hljs-".data t.data then String.mk (t.data.drop 5) else t
  String.mk (token.data.map fun c => if c = '-' then '_' else c)

/-- Spec-side per-frame resolution: the first token whose normalized form
is configured wins. -/
def specResolveColor (cc : CodeColors) : List String → Option String
  | [] => none
  | t :: rest =>
    match lookupColor cc.colors (specNormalizeToken t) with
    | some c => some c
    | none => specResolveColor cc rest

/-- Spec-side stack resolution: innermost-to-outermost, first frame that
resolves wins, else the default foreground. -/
def specStackResolve (cc : CodeColors) : List (List String) → String
  | [] => cc.foreground
  | cls :: rest =>
    match specResolveColor cc cls with
    | some c => c
    | none => specStackResolve cc rest

/-! ## Claim theorems -/

/-- Claim C10: when the tree-walking strategy's platform steps throw —
modelled by the parse or serialize oracle returning `none` — `sanitizeHtml`
returns the original input string completely unchanged, so on this error
path the output is the unsanitized input, not a safe subset. -/
theorem c10_dom_error_returns_input
    (parseHtml : String → Option (List HtmlNode))
    (serializeHtml : List HtmlNode → Option String) (html : String) :
    (parseHtml html = none → sanitizeHtmlDom parseHtml serializeHtml html = html) ∧
    (∀ nodes, parseHtml html = some nodes →
      serializeHtml (sanitizeNodes nodes) = none →
      sanitizeHtmlDom parseHtml serializeHtml html = html) := by
  constructor
  · intro h
    simp [sanitizeHtmlDom, h]
  · intro nodes h1 h2
    simp [sanitizeHtmlDom, h1, h2]

/-- Witness for C10: with a parse oracle that always throws, the dangerous
input comes back verbatim. -/
theorem c10_dom_error_returns_input_witness :
    sanitizeHtmlDom (fun _ => none) (fun _ => some "") "<script>alert(1)</script>" =
      "<script>alert(1)</script>" :=
  (c10_dom_error_returns_input (fun _ => none) (fun _ => some "")
    "<script>alert(1)</script>").1 rfl

/-- Claim C3: a byte buffer matching none of the five image signatures
(PNG, GIF, BMP, JPEG, WEBP) yields exactly the fallback `(96, 96)`; the
embedding is a total function, so no exception can escape (the source
additionally wraps the whole parse in `try`/`catch` feeding the same
fallback). -/
theorem c3_fallback_dimensions (bytes : List Nat)
    (h1 : pngSig bytes = false) (h2 : gifSig bytes = false)
    (h3 : bmpSig bytes = false) (h4 : jpegSig bytes = false)
    (h5 : webpSig bytes = false) :
    getImageDimensions bytes = (96, 96) := by
  simp [getImageDimensions, h1, h2, h3, h4, h5]

/-- Witness for C3 at the unrecognizable buffer `[1, 2, 3]`. -/
theorem c3_fallback_dimensions_witness : getImageDimensions [1, 2, 3] = (96, 96) :=
  c3_fallback_dimensions [1, 2, 3] (by decide) (by decide) (by decide)
    (by decide) (by decide)

/-- Entries of a byte buffer are below 256, and so are defaulted reads. -/
theorem bget_lt_256 (bytes : List Nat) (h : ∀ b ∈ bytes, b < 256) (i : Nat) :
    bget bytes i < 256 := by
  unfold bget
  rcases h' : bytes[i]? with _ | v
  · simp [List.getD, h']
  · have : v ∈ bytes := List.getElem?_mem h'
    simp [List.getD, h']
    exact h v this

/-- A 32-bit little-endian read of a byte buffer fits in 32 bits. -/
theorem readU32LE_lt (bytes : List Nat) (h : ∀ b ∈ bytes, b < 256) (o : Nat) :
    readU32LE bytes o < 4294967296 := by
  unfold readU32LE
  have h0 := bget_lt_256 bytes h o
  have h1 := bget_lt_256 bytes h (o + 1)
  have h2 := bget_lt_256 bytes h (o + 2)
  have h3 := bget_lt_256 bytes h (o + 3)
  omega

/-- Claim C8: for a BMP buffer (signature `BM`, length at least 26 — over
actual bytes, i.e. entries below 256) the parser returns the 32-bit
little-endian field at offset 18 as the width, and as the height the
absolute value of the field at offset 22 read as a two's-complement
32-bit integer: a negative (top-down) encoding resolves to its positive
magnitude, the sign discarded. -/
theorem c8_bmp_negative_height (bytes : List Nat)
    (hbytes : ∀ b ∈ bytes, b < 256) (hbmp : bmpSig bytes = true) :
    getImageDimensions bytes =
      (readU32LE bytes 18,
        Int.natAbs
          (if 2147483648 ≤ readU32LE bytes 22 then
            (readU32LE bytes 22 : ℤ) - 4294967296
          else (readU32LE bytes 22 : ℤ))) := by
  have hb : 26 ≤ bytes.length ∧ bget bytes 0 = 0x42 ∧ bget bytes 1 = 0x4d := by
    rw [bmpSig, Bool.and_eq_true, Bool.and_eq_true] at hbmp
    refine ⟨by simpa using hbmp.1.1, by simpa using hbmp.1.2, by simpa using hbmp.2⟩
  have hpng : pngSig bytes = false := by
    simp [pngSig, hb.2.1]
  have hgif : gifSig bytes = false := by
    simp [gifSig, hb.2.1]
  have hraw := readU32LE_lt bytes hbytes 22
  rw [getImageDimensions]
  rw [hpng, hgif, hbmp]
  simp only [Bool.false_eq_true, if_false, if_true]
  refine Prod.ext rfl ?_
  by_cases hneg : 2147483648 ≤ readU32LE bytes 22
  · rw [if_pos (by omega : 2147483647 < readU32LE bytes 22), if_pos hneg]
    omega
  · rw [if_neg (by omega : ¬2147483647 < readU32LE bytes 22), if_neg hneg]
    omega

/-- Witness for C8: a top-down BMP whose raw height field encodes `-8`
resolves to width 7, height 8. -/
theorem c8_bmp_negative_height_witness :
    getImageDimensions
        [0x42, 0x4d, 0, 0, 0, 0, 0, 0, 0, 0, 0, 0, 0, 0, 0, 0, 0, 0,
          7, 0, 0, 0, 248, 255, 255, 255] = (7, 8) :=
  (c8_bmp_negative_height
    [0x42, 0x4d, 0, 0, 0, 0, 0, 0, 0, 0, 0, 0, 0, 0, 0, 0, 0, 0,
      7, 0, 0, 0, 248, 255, 255, 255] (by decide) (by decide)).trans (by decide)

/-- The concrete image render result of C9: a 2000×3000 raster, block
display. -/
def rasterResult : UnifiedRenderResult :=
  ⟨RRType.image, ⟨none, some "png", some 2000, some 3000⟩, ⟨false, none⟩⟩

/-- Claim C9 (implicit): every image-type render result has its raster
width and height each divided by 4 and rounded before the display-fit
calculation, so the placed transformation is the fit of the quarter-scale
raster; concretely a 2000×3000 raster is placed at 500×750 (the
quarter-scale fits the page), not at the 576×864 the raw raster would
give. -/
theorem c9_quarter_scale (r : UnifiedRenderResult) (himg : r.type = RRType.image) :
    (imageTransformOf (convertPluginResultToDOCX r) =
      some
        ⟨(calculateImageDimensions ((jsRound ((r.content.width.getD 0) / 4) : ℤ) : ℚ)
            ((jsRound ((r.content.height.getD 0) / 4) : ℤ) : ℚ)).1,
          (calculateImageDimensions ((jsRound ((r.content.width.getD 0) / 4) : ℤ) : ℚ)
            ((jsRound ((r.content.height.getD 0) / 4) : ℤ) : ℚ)).2⟩) ∧
    imageTransformOf (convertPluginResultToDOCX rasterResult) = some ⟨500, 750⟩ ∧
    calculateImageDimensions 2000 3000 = (576, 864) := by
  refine ⟨?_, ?_, ?_⟩
  · rw [convertPluginResultToDOCX, himg]
    by_cases hinl : r.display.inline
    · simp [hinl, imageTransformOf]
    · simp [hinl, imageTransformOf, firstImage]
  · simp only [rasterResult, convertPluginResultToDOCX]
    norm_num [imageTransformOf, firstImage, calculateImageDimensions, jsRound, alignOf]
  · norm_num [calculateImageDimensions, jsRound, min_def]

/-- Witness for C9: the quarter-scale equation applied at the concrete
2000×3000 raster result. -/
theorem c9_quarter_scale_witness :
    imageTransformOf (convertPluginResultToDOCX rasterResult) =
      some
        ⟨(calculateImageDimensions
            ((jsRound ((rasterResult.content.width.getD 0) / 4) : ℤ) : ℚ)
            ((jsRound ((rasterResult.content.height.getD 0) / 4) : ℤ) : ℚ)).1,
          (calculateImageDimensions
            ((jsRound ((rasterResult.content.width.getD 0) / 4) : ℤ) : ℚ)
            ((jsRound ((rasterResult.content.height.getD 0) / 4) : ℤ) : ℚ)).2⟩ :=
  (c9_quarter_scale rasterResult rfl).1

/-- Filtering with a predicate leaves only elements satisfying it. -/
theorem filter_all_self (p : HtmlAttr → Bool) (l : List HtmlAttr) :
    (l.filter p).all p = true := by
  induction l with
  | nil => rfl
  | cons a rest ih => by_cases h : p a <;> simp [List.filter, h, ih]

/-- Does the string contain an opening tag `<name` (case-insensitive,
with a word boundary after the name), i.e. an element of that name? -/
def containsOpenTag (tag : String) : List Char → Bool
  | [] => false
  | c :: cs =>
    (c == '<' &&
      (match matchCi tag.data cs with
        | some r => boundaryOk r
        | none => false)) ||
      containsOpenTag tag cs

/-- Counterexample to claim C1: the streaming strategy removes a blocked
element only as a paired `<tag>…</tag>` span, so the void (closing-tag-
less) blocked element `<embed src="x">` passes through `sanitize`
completely unchanged and the output still contains an embed element. -/
theorem c1_counterexample :
    sanitizeHtmlWithoutDom "<embed src=\"x\">" = "<embed src=\"x\">" ∧
      containsOpenTag "embed" (sanitizeHtmlWithoutDom "<embed src=\"x\">").data = true := by
  decide

/-- Claim C1 as amended: the guarantee holds for the tree-walking
strategy — after `sanitizeNodeTree` the tree contains, at any depth, no
blocked element (script/iframe/object/embed/audio/video), no comment
node, no attribute whose name starts with `on`, and no `href` whose
trimmed lower-cased value uses the `javascript:` scheme (`cleanNodes`
states exactly these four properties recursively).  The streaming
strategy guarantees this only for blocked elements appearing as paired
open/close tag spans; a blocked element with no closing tag survives. -/
theorem c1_tree_sanitizer_invariant : ∀ ns, cleanNodes (sanitizeNodes ns) = true := by
  intro ns
  induction ns using sanitizeNodes.induct with
  | case1 => simp [sanitizeNodes, cleanNodes]
  | case2 s rest ih => simp [sanitizeNodes, cleanNodes, cleanNode, ih]
  | case3 s rest ih => simp [sanitizeNodes, ih]
  | case4 tag attrs children rest hblk ih =>
    have hmem : tag ∈ blockedTagNames := by simpa using hblk
    simp [sanitizeNodes, hmem, ih]
  | case5 tag attrs children rest hblk ih ihc =>
    have hmem : ¬tag ∈ blockedTagNames := by simpa using hblk
    have hcon : blockedTagNames.contains tag = false := by simpa using hmem
    simp [sanitizeNodes, hmem, cleanNodes, cleanNode, hcon, ih, ihc, filter_all_self]

/-- Counterexample to claim C2: the streaming `sanitize` is not
idempotent.  Removing the paired `<script></script>` span from
`<scr<script></script>ipt>x</script>` splices the surrounding characters
into a new `<script>x</script>`, which only a second application
removes. -/
theorem c2_counterexample :
    sanitizeHtmlWithoutDom "<scr<script></script>ipt>x</script>" =
        "<script>x</script>" ∧
      sanitizeHtmlWithoutDom
          (sanitizeHtmlWithoutDom "<scr<script></script>ipt>x</script>") ≠
        sanitizeHtmlWithoutDom "<scr<script></script>ipt>x</script>" := by
  decide

/-- Claim C2 as amended: idempotence holds for the tree-walking strategy
at the node-tree level — sanitizing an already-sanitized tree changes
nothing — but not for the streaming strategy, where removing a
paired-tag span can splice surrounding text into a new blocked span. -/
theorem c2_tree_idempotent : ∀ ns, sanitizeNodes (sanitizeNodes ns) = sanitizeNodes ns := by
  intro ns
  induction ns using sanitizeNodes.induct with
  | case1 => simp [sanitizeNodes]
  | case2 s rest ih => simp [sanitizeNodes, ih]
  | case3 s rest ih => simp [sanitizeNodes, ih]
  | case4 tag attrs children rest hblk ih =>
    have hmem : tag ∈ blockedTagNames := by simpa using hblk
    simp [sanitizeNodes, hmem, ih]
  | case5 tag attrs children rest hblk ih ihc =>
    have hmem : ¬tag ∈ blockedTagNames := by simpa using hblk
    simp [sanitizeNodes, hmem, ih, ihc, List.filter_filter]

/-- Claim C5: the visible-content check (the `hasContent` result of
`sanitizeAndCheck` in the no-DOM environment) is false for every input
consisting solely of line-break elements with intervening whitespace or
`&nbsp;` (the anchored `brOnly` pattern, which begins at the first
`<br>`), in particular for `"<br><br>"`; and it is true for `"<p>hi</p>"`
and, in general, for every input outside that line-break special case
whose sanitized markup has non-empty stripped text content (tags
stripped, whitespace collapsed, trimmed — the check's own text
extraction). -/
theorem c5_visible_content :
    (∀ s, brOnly s = true → (sanitizeAndCheck s).2 = false) ∧
    (sanitizeAndCheck "<br><br>").2 = false ∧
    (sanitizeAndCheck "<p>hi</p>").2 = true ∧
    (∀ s, brOnly s = false →
      extractText (normalizeContent (sanitizeHtmlWithoutDom s)) ≠ "" →
      (sanitizeAndCheck s).2 = true) := by
  refine ⟨?_, by decide, by decide, ?_⟩
  · intro s h
    simp [sanitizeAndCheck, h]
  · intro s h ht
    simp only [sanitizeAndCheck, h, Bool.false_eq_true, if_false]
    unfold hasHtmlContentWithoutDom
    by_cases hN : normalizeContent (sanitizeHtmlWithoutDom s) = ""
    · rw [hN] at ht
      exact absurd rfl ht
    · simp [hN, ht]

/-- Witness for C5: the line-break rule applied at `"<br/> &nbsp;"` and
the text rule applied at `"<b>yo</b>"`. -/
theorem c5_visible_content_witness :
    (sanitizeAndCheck "<br/> &nbsp;").2 = false ∧
      (sanitizeAndCheck "<b>yo</b>").2 = true :=
  ⟨c5_visible_content.1 "<br/> &nbsp;" (by decide),
    c5_visible_content.2.2.2 "<b>yo</b>" (by decide) (by decide)⟩

/-- A successful table lookup returns a stored value. -/
theorem lookupColor_mem (l : List (String × String)) (k c : String)
    (h : lookupColor l k = some c) : ∃ p ∈ l, p.2 = c := by
  induction l with
  | nil => simp [lookupColor] at h
  | cons p rest ih =>
    rw [lookupColor] at h
    by_cases hk : p.1 = k
    · rw [if_pos hk] at h
      exact ⟨p, List.mem_cons_self .., by injection h⟩
    · rw [if_neg hk] at h
      obtain ⟨q, hq, hc⟩ := ih h
      exact ⟨q, List.mem_cons_of_mem _ hq, hc⟩

/-- Over a table with no empty key and hash-free non-empty values, the
source's token loop agrees with the spec's per-token resolution. -/
theorem resolveTokens_eq_spec (cc : CodeColors)
    (h1 : lookupColor cc.colors "" = none)
    (h2 : ∀ p ∈ cc.colors, p.2 ≠ "" ∧ stripFirstHash p.2 = p.2) :
    ∀ toks, resolveTokens cc toks = specResolveColor cc toks := by
  intro toks
  induction toks with
  | nil => rfl
  | cons t rest ih =>
    rw [resolveTokens, specResolveColor]
    by_cases ht : t = ""
    · subst ht
      have he : specNormalizeToken "" = "" := rfl
      rw [if_pos rfl, he, h1, ih]
    · rw [if_neg ht]
      by_cases htok :
          (if isPfx "hljs-".data t.data then String.mk (t.data.drop 5) else t) = ""
      · rw [if_pos htok]
        have he : specNormalizeToken t = "" := by
          rw [specNormalizeToken, htok]
          rfl
        rw [he, h1, ih]
      · rw [if_neg htok]
        have he : specNormalizeToken t =
            String.mk (((if isPfx "hljs-".data t.data then String.mk (t.data.drop 5)
              else t)).data.map fun c => if c = '-' then '_' else c) := rfl
        rcases hl : lookupColor cc.colors
            (String.mk (((if isPfx "hljs-".data t.data then String.mk (t.data.drop 5)
              else t)).data.map fun c => if c = '-' then '_' else c)) with _ | c
        · simp only [he, hl, ih]
        · obtain ⟨p, hp, hc⟩ := lookupColor_mem _ _ _ hl
          obtain ⟨hne, hstrip⟩ := h2 p hp
          rw [hc] at hne hstrip
          simp only [he, hl, if_neg hne, hstrip]

/-- Over such a table the spec-side resolution never yields the empty
color. -/
theorem specResolveColor_ne_empty (cc : CodeColors)
    (h2 : ∀ p ∈ cc.colors, p.2 ≠ "" ∧ stripFirstHash p.2 = p.2) :
    ∀ cls c, specResolveColor cc cls = some c → c ≠ "" := by
  intro cls
  induction cls with
  | nil => intro c h; simp [specResolveColor] at h
  | cons t rest ih =>
    intro c h
    rw [specResolveColor] at h
    rcases hl : lookupColor cc.colors (specNormalizeToken t) with _ | d
    · rw [hl] at h
      exact ih c h
    · rw [hl] at h
      obtain ⟨p, hp, hc⟩ := lookupColor_mem _ _ _ hl
      have := (h2 p hp).1
      rw [hc] at this
      injection h with h
      rw [← h]
      exact this

/-- Claim C6: over any theme table without an empty key and with
non-empty, hash-free configured colors, the source's color resolution is
exactly the spec's: per class token the `hljs-` namespace is stripped if
present, hyphens become underscores, the table is consulted, the first
resolving token of a frame wins, frames are walked innermost-to-
outermost, and when nothing resolves the default foreground applies.
Concretely, markup `<span class="hljs-keyword">if</span> x` under
`keyword -> "FF0000"` yields the run `if` in `FF0000` followed by ` x`
in the default foreground. -/
theorem c6_color_resolution (cc : CodeColors)
    (h1 : lookupColor cc.colors "" = none)
    (h2 : ∀ p ∈ cc.colors, p.2 ≠ "" ∧ stripFirstHash p.2 = p.2) :
    (∀ toks, resolveTokens cc toks = specResolveColor cc toks) ∧
    (∀ stack, currentColor cc stack = specStackResolve cc stack) ∧
    getHighlightedRunsForCode scenarioTheme scenarioStyle "if x"
        (some "<span class=\"hljs-keyword\">if</span> x") =
      [Run.text "if" "FF0000" "Consolas" 20,
        Run.text " x" "24292E" "Consolas" 20] := by
  refine ⟨resolveTokens_eq_spec cc h1 h2, ?_, by decide⟩
  intro stack
  induction stack with
  | nil => rfl
  | cons cls rest ih =>
    rw [currentColor, specStackResolve, getHighlightColor,
      resolveTokens_eq_spec cc h1 h2 cls]
    rcases hl : specResolveColor cc cls with _ | c
    · exact ih
    · simp only [if_neg (specResolveColor_ne_empty cc h2 cls c hl)]

/-- Witness for C6: the resolution equivalence applied at the concrete
scenario theme and the scenario's own class stack. -/
theorem c6_color_resolution_witness :
    currentColor scenarioTheme [["hljs-keyword"]] =
      specStackResolve scenarioTheme [["hljs-keyword"]] :=
  (c6_color_resolution scenarioTheme (by decide) (by decide)).2.1 [["hljs-keyword"]]
def runHasNoNewline : Run → Bool
  | Run.text t _ _ _ => t.data.all fun c => c != '\n'
  | Run.brk => true

theorem splitNl_no_nl : ∀ l : List Char, ∀ s ∈ splitNl l,
    (s.all fun c => c != '\n') = true := by
  intro l
  induction l with
  | nil =>
    intro s hs
    simp [splitNl] at hs
    simp [hs]
  | cons c rest ih =>
    intro s hs
    rw [splitNl] at hs
    by_cases hc : c = '\n'
    · rw [if_pos hc] at hs
      rcases List.mem_cons.1 hs with h | h
      · simp [h]
      · exact ih s h
    · rw [if_neg hc] at hs
      rcases hsp : splitNl rest with _ | ⟨h0, t0⟩
      · rw [hsp] at hs
        rcases List.mem_cons.1 hs with h | h
        · subst h
          simp [hc]
        · simp at h
      · rw [hsp] at hs
        rcases List.mem_cons.1 hs with h | h
        · subst h
          have hh : (h0.all fun x => x != '\n') = true := by
            apply ih
            rw [hsp]
            exact List.mem_cons_self ..
          simp [hc, hh]
        · apply ih
          rw [hsp]
          exact List.mem_cons_of_mem _ h

theorem emitSegments_ok (style : CodeStyle) (col : String) :
    ∀ segs : List (List Char), (∀ s ∈ segs, (s.all fun c => c != '\n') = true) →
      ((emitSegments style col segs).all runHasNoNewline) = true := by
  intro segs
  induction segs using emitSegments.induct style col with
  | case1 => intro _; rfl
  | case2 seg hl =>
    intro h
    simp [emitSegments, hl, runHasNoNewline, h seg (List.mem_cons_self ..)]
  | case3 seg hl =>
    intro h
    simp [emitSegments, hl]
  | case4 seg rest hne ih =>
    intro h
    have h1 := h seg (List.mem_cons_self ..)
    have h2 : ∀ s ∈ rest, (s.all fun c => c != '\n') = true := fun s hs =>
      h s (List.mem_cons_of_mem _ hs)
    rcases rest with _ | ⟨s2, t2⟩
    · exact absurd rfl hne
    · by_cases hl : seg.length > 0 <;>
        simp [emitSegments, hl, runHasNoNewline, h1, ih h2]

theorem appendCodeTextRuns_ok (style : CodeStyle) (fg text : String)
    (runs : List Run) (color : Option String)
    (h : runs.all runHasNoNewline = true) :
    ((appendCodeTextRuns style fg text runs color).all runHasNoNewline) = true := by
  rw [appendCodeTextRuns.eq_def]
  by_cases ht : text = ""
  · rw [if_pos ht]
    exact h
  · rw [if_neg ht]
    simp only [List.all_append, h, Bool.true_and]
    exact emitSegments_ok style _ _ (splitNl_no_nl text.data)

theorem flushRuns_ok (cc : CodeColors) (style : CodeStyle)
    (stack : List (List String)) (buffer : List Char) (runs : List Run)
    (h : runs.all runHasNoNewline = true) :
    ((flushRuns cc style stack buffer runs).all runHasNoNewline) = true := by
  rw [flushRuns]
  by_cases hb : buffer = []
  · rw [if_pos hb]
    exact h
  · rw [if_neg hb]
    exact appendCodeTextRuns_ok _ _ _ _ _ h

theorem scanHtml_ok (cc : CodeColors) (style : CodeStyle) :
    ∀ (fuel : Nat) (l : List Char) (stack : List (List String))
      (buffer : List Char) (runs : List Run),
      runs.all runHasNoNewline = true →
      ((scanHtml cc style fuel l stack buffer runs).all runHasNoNewline) = true := by
  intro fuel
  induction fuel with
  | zero =>
    intro l stack buffer runs h
    exact flushRuns_ok cc style stack buffer runs h
  | succ fuel ih =>
    intro l stack buffer runs h
    rcases l with _ | ⟨c, cs⟩
    · rw [scanHtml]
      exact flushRuns_ok cc style stack buffer runs h
    · rw [scanHtml]
      by_cases hc : c ≠ '<'
      · rw [if_pos hc]
        exact ih cs stack (buffer ++ [c]) runs h
      · rw [if_neg hc]
        rcases hsp : splitAtGt cs with _ | ⟨inside, after⟩
        · exact flushRuns_ok cc style stack (buffer ++ c :: cs) runs h
        · have hfl := flushRuns_ok cc style stack buffer runs h
          by_cases h1 : isPfx "span".data ((jsTrimList inside).map lowerChar)
          · simp only [h1, if_true]
            exact ih after _ [] _ hfl
          · simp only [h1, Bool.false_eq_true, if_false]
            by_cases h2 : (jsTrimList inside).map lowerChar = "/span".data
            · simp only [h2, if_pos rfl]
              exact ih after stack.tail [] _ hfl
            · rw [if_neg h2]
              by_cases h3 : isPfx "br".data ((jsTrimList inside).map lowerChar)
              · simp only [h3, if_true]
                exact ih after stack ['\n'] _ hfl
              · simp only [h3, Bool.false_eq_true, if_false]
                exact ih after stack buffer runs h

/-- Claim C7: no text run produced by the run builder contains a newline
character — for every code string, theme, and highlighting markup input,
text with embedded newlines is split into one run per line with distinct
break-marker runs between consecutive lines; concretely `"a\n\nb"` yields
run `a`, two break markers (the empty middle line contributes a break but
no run), and run `b`. -/
theorem c7_no_newline_in_runs :
    (∀ (cc : CodeColors) (style : CodeStyle) (code : String)
      (highlighted : Option String),
      ((getHighlightedRunsForCode cc style code highlighted).all
        runHasNoNewline) = true) ∧
    appendCodeTextRuns scenarioStyle "X" "a\n\nb" [] none =
      [Run.text "a" "X" "Consolas" 20, Run.brk, Run.brk,
        Run.text "b" "X" "Consolas" 20] := by
  refine ⟨?_, by decide⟩
  intro cc style code highlighted
  rw [getHighlightedRunsForCode.eq_def]
  by_cases hcode : code = ""
  · rw [if_pos hcode]
    simp [runHasNoNewline]
  · rw [if_neg hcode]
    rcases highlighted with _ | hv
    · simp only [if_true, eq_self_iff_true]
      exact appendCodeTextRuns_ok _ _ _ [] _ rfl
    · simp only []
      by_cases hv0 : hv = ""
      · simp only [hv0, if_true, eq_self_iff_true]
        exact appendCodeTextRuns_ok _ _ _ [] _ rfl
      · rw [if_neg hv0]
        have hs : ((appendHighlightedRunsFromHtml cc style hv.data []).all
            runHasNoNewline) = true := scanHtml_ok cc style _ _ _ _ _ rfl
        by_cases hr : appendHighlightedRunsFromHtml cc style hv.data [] = []
        · rw [if_pos hr]
          exact appendCodeTextRuns_ok _ _ _ [] _ rfl
        · rw [if_neg hr]
          exact hs

/-- Rounding to nearest moves a value by at most half a unit. -/
theorem jsRound_abs_le (x : ℚ) : |((jsRound x : ℤ) : ℚ) - x| ≤ 1 / 2 := by
  rw [jsRound, abs_le]
  constructor
  · have := Int.lt_floor_add_one (x + 1 / 2)
    push_cast at this
    linarith
  · have := Int.floor_le (x + 1 / 2)
    linarith


/-- Claim C4: for positive integer pixel dimensions and the maxima
576×912: when both fit, the calculator returns the original dimensions
exactly (no upscaling ever); otherwise it returns
`round(w*r) × round(h*r)` with `r = min(576/w, 912/h)`.  In every case
the result exceeds neither maximum nor the original dimensions, each
axis sits within half a rounding unit of the exactly-scaled value (so
the aspect ratio is preserved within one rounding unit), and input
2000×3000 yields 576×864. -/
theorem c4_fit_policy (w h : ℕ) (hw : 0 < w) (hh : 0 < h) :
    (((w : ℚ) ≤ 576 ∧ (h : ℚ) ≤ 912) →
      calculateImageDimensions w h = ((w : ℚ), (h : ℚ))) ∧
    (¬((w : ℚ) ≤ 576 ∧ (h : ℚ) ≤ 912) →
      calculateImageDimensions w h =
        (((jsRound ((w : ℚ) * min (576 / (w : ℚ)) (912 / (h : ℚ)))) : ℚ),
          ((jsRound ((h : ℚ) * min (576 / (w : ℚ)) (912 / (h : ℚ)))) : ℚ)) ∧
      |(calculateImageDimensions w h).1 -
          (w : ℚ) * min (576 / (w : ℚ)) (912 / (h : ℚ))| ≤ 1 / 2 ∧
      |(calculateImageDimensions w h).2 -
          (h : ℚ) * min (576 / (w : ℚ)) (912 / (h : ℚ))| ≤ 1 / 2) ∧
    (calculateImageDimensions w h).1 ≤ 576 ∧
    (calculateImageDimensions w h).2 ≤ 912 ∧
    (calculateImageDimensions w h).1 ≤ (w : ℚ) ∧
    (calculateImageDimensions w h).2 ≤ (h : ℚ) ∧
    calculateImageDimensions 2000 3000 = (576, 864) := by
  have hW : (0 : ℚ) < w := by exact_mod_cast hw
  have hH : (0 : ℚ) < h := by exact_mod_cast hh
  have hconst : calculateImageDimensions w h =
      if (w : ℚ) ≤ 576 ∧ (h : ℚ) ≤ 912 then ((w : ℚ), (h : ℚ))
      else
        (((jsRound ((w : ℚ) * min (576 / (w : ℚ)) (912 / (h : ℚ)))) : ℚ),
          ((jsRound ((h : ℚ) * min (576 / (w : ℚ)) (912 / (h : ℚ)))) : ℚ)) := by
    rw [calculateImageDimensions]
    norm_num
  by_cases hfit : (w : ℚ) ≤ 576 ∧ (h : ℚ) ≤ 912
  · rw [hconst, if_pos hfit]
    refine ⟨fun _ => rfl, fun hc => absurd hfit hc, hfit.1, hfit.2, le_refl _,
      le_refl _, by norm_num [calculateImageDimensions, jsRound, min_def]⟩
  · rw [hconst, if_neg hfit]
    set r := min (576 / (w : ℚ)) (912 / (h : ℚ)) with hr
    have hr1 : r ≤ 576 / (w : ℚ) := min_le_left _ _
    have hr2 : r ≤ 912 / (h : ℚ) := min_le_right _ _
    have hWr : (w : ℚ) * r ≤ 576 := by
      calc (w : ℚ) * r ≤ (w : ℚ) * (576 / (w : ℚ)) :=
        mul_le_mul_of_nonneg_left hr1 (le_of_lt hW)
      _ = 576 := by field_simp
    have hHr : (h : ℚ) * r ≤ 912 := by
      calc (h : ℚ) * r ≤ (h : ℚ) * (912 / (h : ℚ)) :=
        mul_le_mul_of_nonneg_left hr2 (le_of_lt hH)
      _ = 912 := by field_simp
    have hrlt : r < 1 := by
      rcases not_and_or.1 hfit with hgt | hgt
      · have : 576 / (w : ℚ) < 1 := by
          rw [div_lt_one hW]
          linarith [not_le.1 hgt]
        exact lt_of_le_of_lt hr1 this
      · have : 912 / (h : ℚ) < 1 := by
          rw [div_lt_one hH]
          linarith [not_le.1 hgt]
        exact lt_of_le_of_lt hr2 this
    have hb1 : ((jsRound ((w : ℚ) * r)) : ℚ) ≤ 576 := by
      have h1 : jsRound ((w : ℚ) * r) ≤ jsRound 576 :=
        Int.floor_le_floor (by linarith)
      have h2 : jsRound (576 : ℚ) = 576 := by norm_num [jsRound]
      exact_mod_cast h1.trans_eq h2
    have hb2 : ((jsRound ((h : ℚ) * r)) : ℚ) ≤ 912 := by
      have h1 : jsRound ((h : ℚ) * r) ≤ jsRound 912 :=
        Int.floor_le_floor (by linarith)
      have h2 : jsRound (912 : ℚ) = 912 := by norm_num [jsRound]
      exact_mod_cast h1.trans_eq h2
    have hup1 : ((jsRound ((w : ℚ) * r)) : ℚ) ≤ (w : ℚ) := by
      have hmul : (w : ℚ) * r ≤ (w : ℚ) * 1 :=
        mul_le_mul_of_nonneg_left (le_of_lt hrlt) (le_of_lt hW)
      have h1 : jsRound ((w : ℚ) * r) ≤ jsRound (w : ℚ) :=
        Int.floor_le_floor (by linarith)
      have h2 : jsRound ((w : ℕ) : ℚ) = (w : ℤ) := by
        rw [jsRound, Int.floor_eq_iff]
        constructor
        · push_cast
          linarith
        · push_cast
          linarith
      have := h1.trans_eq h2
      exact_mod_cast this
    have hup2 : ((jsRound ((h : ℚ) * r)) : ℚ) ≤ (h : ℚ) := by
      have hmul : (h : ℚ) * r ≤ (h : ℚ) * 1 :=
        mul_le_mul_of_nonneg_left (le_of_lt hrlt) (le_of_lt hH)
      have h1 : jsRound ((h : ℚ) * r) ≤ jsRound (h : ℚ) :=
        Int.floor_le_floor (by linarith)
      have h2 : jsRound ((h : ℕ) : ℚ) = (h : ℤ) := by
        rw [jsRound, Int.floor_eq_iff]
        constructor
        · push_cast
          linarith
        · push_cast
          linarith
      have := h1.trans_eq h2
      exact_mod_cast this
    refine ⟨fun hc => absurd hc hfit,
      fun _ => ⟨rfl, jsRound_abs_le _, jsRound_abs_le _⟩,
      hb1, hb2, hup1, hup2,
      by norm_num [calculateImageDimensions, jsRound, min_def]⟩

/-- Witness for C4 at the concrete 2000×3000 input. -/
theorem c4_fit_policy_witness :
    calculateImageDimensions 2000 3000 = (576, 864) :=
  (c4_fit_policy 2000 3000 (by norm_num) (by norm_num)).2.2.2.2.2.2
